import Mathlib

/-!
# Console logging provider (package sgloggerconsole)

A shallow embedding of `console_provider.go` and `console_formatter.go`.

Go strings and byte slices are represented by `String` (the conversion
`[]byte(message)` keeps the bytes of `message`).  Effects are made explicit:
the wall clock, the call stack, the iteration order of a map and the result of
a write on standard output or standard error are read from an `Env`, and what a
call does to the outside world is returned as a list of `Event`s.

The parts of the Go standard library and of logrus that the two files call are
embedded next to them, each under the name it has there.
-/

set_option autoImplicit false

/-! ## Standard library: strings, fmt, maps -/

namespace strings

/-- Whether the first list starts the second one. -/
def startsWith : List Char → List Char → Bool
  | [], _ => true
  | _ :: _, [] => false
  | a :: as, b :: bs => decide (a = b) && startsWith as bs

/-- Whether the first list occurs in the second one as a contiguous block. -/
def containsData (sub : List Char) : List Char → Bool
  | [] => startsWith sub []
  | c :: cs => startsWith sub (c :: cs) || containsData sub cs

/-- Go `strings.Contains(s, substr)`. -/
def Contains (s substr : String) : Bool :=
  containsData substr.data s.data

/-- The pieces of a text between the occurrences of a one-character separator;
there is always at least one piece. -/
def splitData (sep : Char) : List Char → List (List Char)
  | [] => [[]]
  | c :: cs =>
    if c = sep then [] :: splitData sep cs
    else
      match splitData sep cs with
      | [] => [[c]]
      | p :: ps => (c :: p) :: ps

/-- Go `strings.Split(s, sep)` for a separator of one character, which is how
`getCaller` calls it (`"/"`). -/
def Split (s : String) (sep : Char) : List String :=
  (splitData sep s.data).map String.mk

/-- Go `strings.Join(elems, sep)`. -/
def Join : List String → String → String
  | [], _ => ""
  | [a], _ => a
  | a :: b :: rest, sep => a ++ sep ++ Join (b :: rest) sep

/-- Go `strings.ToUpper` on the letters `a`..`z`.  `Format` applies it to the
result of `Level.String()` only, which is one of eight lower-case ASCII words. -/
def ToUpper (s : String) : String :=
  String.mk (s.data.map Char.toUpper)

/-- The runes that Go `unicode.ToLower` sends to an ASCII letter are `A`..`Z`,
U+0130 (to `i`) and U+212A (to `k`).  Every other rune has a lower-case form
outside ASCII and is kept as it is here: `ParseLevel` only compares the result
with ASCII words. -/
def lowerRune (c : Char) : Char :=
  if c = Char.ofNat 0x130 then 'i'
  else if c = Char.ofNat 0x212A then 'k'
  else c.toLower

/-- Go `strings.ToLower`, rune by rune. -/
def ToLower (s : String) : String :=
  String.mk (s.data.map lowerRune)

end strings

/-- A field value (`interface{}`), by dynamic type. -/
inductive Value where
  /-- A Go `int`. -/
  | int (n : Int)
  /-- A Go `string`. -/
  | str (s : String)
  /-- A Go `bool`. -/
  | bool (b : Bool)
  /-- The nil interface value. -/
  | null
  /-- A function or a pointer to a function, with the text `%v` prints for it. -/
  | func (text : String)
  /-- A value of any other dynamic type, with the text `%v` prints for it. -/
  | other (text : String)
  deriving DecidableEq

/-- The text `fmt` prints for a value under the verb `%v`. -/
def Value.fmtV : Value → String
  | .int n => toString n
  | .str s => s
  | .bool b => if b then "true" else "false"
  | .null => "<nil>"
  | .func text => text
  | .other text => text

/-- A `map[string]interface{}` as the list of its entries.  Both
`sglogger.Fields` and `logrus.Fields` are such maps. -/
abbrev Fields := List (String × Value)

/-- Go `m[k] = v`: replace the entry of the key, or add one. -/
def Fields.set (m : Fields) (k : String) (v : Value) : Fields :=
  if m.any (fun e => decide (e.1 = k)) then
    m.map (fun e => if e.1 = k then (k, v) else e)
  else m ++ [(k, v)]

namespace maps

/-- Go `maps.Copy(dst, src)`: `for k, v := range src { dst[k] = v }`. -/
def Copy (dst src : Fields) : Fields :=
  src.foldl (fun d e => Fields.set d e.1 e.2) dst

end maps

/-! ## The facade package sglogger -/

namespace sglogger

/-- Modelled from the spec: the package sglogger, which declares `Level`, is
not among the source files.  Section 3 of the specification gives the ordered
enumeration Debug < Info < Warn < Error < Fatal; a level is an integer and any
integer can be passed where a `Level` is expected. -/
abbrev Level := Int

/-- Modelled from the spec: first of the five severities of section 3. -/
def LevelDebug : Level := 0

/-- Modelled from the spec: second of the five severities of section 3. -/
def LevelInfo : Level := 1

/-- Modelled from the spec: third of the five severities of section 3. -/
def LevelWarn : Level := 2

/-- Modelled from the spec: fourth of the five severities of section 3. -/
def LevelError : Level := 3

/-- Modelled from the spec: last of the five severities of section 3. -/
def LevelFatal : Level := 4

end sglogger

/-- Go `context.Context`, reduced to what a caller can observe of it. -/
structure Context where
  /-- Whether the context has been cancelled. -/
  done : Bool
  /-- The deadline, when there is one. -/
  deadline : Option Nat
  deriving DecidableEq

/-! ## logrus -/

namespace logrus

/-- The type `logrus.Level` (a `uint32`). -/
abbrev Level := Nat

def PanicLevel : Level := 0
def FatalLevel : Level := 1
def ErrorLevel : Level := 2
def WarnLevel : Level := 3
def InfoLevel : Level := 4
def DebugLevel : Level := 5
def TraceLevel : Level := 6

/-- The function `logrus.ParseLevel`: `none` stands for the non-nil error, whose
text `NewConsoleProvider` never reads. -/
def ParseLevel (lvl : String) : Option Level :=
  let s := strings.ToLower lvl
  if s = "panic" then some PanicLevel
  else if s = "fatal" then some FatalLevel
  else if s = "error" then some ErrorLevel
  else if s = "warn" ∨ s = "warning" then some WarnLevel
  else if s = "info" then some InfoLevel
  else if s = "debug" then some DebugLevel
  else if s = "trace" then some TraceLevel
  else none

/-- The method `Level.MarshalText`; `none` stands for its error. -/
def MarshalText (level : Level) : Option String :=
  if level = TraceLevel then some "trace"
  else if level = DebugLevel then some "debug"
  else if level = InfoLevel then some "info"
  else if level = WarnLevel then some "warning"
  else if level = ErrorLevel then some "error"
  else if level = FatalLevel then some "fatal"
  else if level = PanicLevel then some "panic"
  else none

/-- The method `Level.String()`. -/
def LevelString (level : Level) : String :=
  match MarshalText level with
  | some b => b
  | none => "unknown"

/-- The fields of `logrus.Entry` that the formatter and the provider read. -/
structure Entry where
  /-- The field `Data`. -/
  Data : Fields
  /-- The field `Level`. -/
  Level : logrus.Level
  /-- The field `Message`. -/
  Message : String
  deriving DecidableEq

end logrus

/-! ## The outside world -/

/-- How a write on standard output or standard error ends. -/
inductive IOResult where
  /-- The write returned a nil error. -/
  | ok
  /-- The write returned this error. -/
  | failed (err : String)
  /-- The write met a broken pipe (EPIPE on descriptor 1 or 2): the Go runtime
  raises SIGPIPE and the process dies inside the write, which does not return. -/
  | sigpipe
  deriving DecidableEq

/-- What a call reads from the outside world. -/
structure Env where
  /-- The text of `time.Now().Format("2006-01-02 15:04:05")`. -/
  now : String
  /-- Go `runtime.Caller(skip)` at the point where `getCaller` runs: the program
  counter, file path and line of the frame, or `none` when `ok` is false. -/
  Caller : Nat → Option (Nat × String × Int)
  /-- Go `runtime.FuncForPC(pc).Name()`, or `none` when `FuncForPC` returns nil. -/
  FuncForPC : Nat → Option String
  /-- Lines are numbered from 1: a frame that both functions resolve has a line
  that is at least 1. -/
  line_pos : ∀ (i pc : Nat) (file : String) (line : Int) (fn : String),
    Caller i = some (pc, file, line) → FuncForPC pc = some fn → 1 ≤ line
  /-- The order in which a `range` statement visits the entries of a map. -/
  rangeOrder : Fields → Fields
  /-- A `range` statement visits every entry of the map once. -/
  rangeOrder_perm : ∀ m : Fields, (rangeOrder m).Perm m
  /-- Go `os.Stdout.Write(b)`: how the write of these bytes ends. -/
  stdoutWrite : String → IOResult
  /-- Go `os.Stderr.Write(b)`: how the write of this text ends. -/
  stderrWrite : String → IOResult

/-- What a call does to the outside world, in the order it does it. -/
inductive Event where
  /-- The formatter of the logger was called on an entry. -/
  | format (entry : logrus.Entry)
  /-- A write of these bytes on standard output was made and ended this way. -/
  | stdout (bytes : String) (res : IOResult)
  /-- A write of this text on standard error was made and ended this way. -/
  | stderr (text : String) (res : IOResult)
  /-- The process was ended by `os.Exit` with this status. -/
  | exit (code : Int)
  deriving DecidableEq

/-! ## console_formatter.go -/

/-- The interface `ConsoleFormatter`: its one method `Format`, which returns the
bytes and the error (`none` for nil). -/
abbrev ConsoleFormatter := Env → logrus.Entry → String × Option String

/-- The loop of `getCaller`, from index `i` with `n` iterations left. -/
def getCallerFrom (env : Env) : Nat → Nat → String × Int
  | _, 0 => ("???", 0)
  | i, n + 1 =>
    match env.Caller i with
    | none => getCallerFrom env (i + 1) n
    | some (pc, file, line) =>
      match env.FuncForPC pc with
      | none => getCallerFrom env (i + 1) n
      | some funcName =>
        if strings.Contains funcName "logrus" || strings.Contains file "logrus" then
          getCallerFrom env (i + 1) n
        else if strings.Contains funcName "logger" || strings.Contains file "logger" then
          getCallerFrom env (i + 1) n
        else
          match (strings.Split file '/').getLast? with
          | some last => (last, line)
          | none => (file, line)

/-- The function `getCaller`: `for i := 3; i <= 10; i++`. -/
def getCaller (env : Env) : String × Int :=
  getCallerFrom env 3 8

/-- The `switch entry.Level` of `Format`. -/
def levelColor (level : logrus.Level) : String :=
  if level = logrus.DebugLevel then "\x1b[36m"
  else if level = logrus.InfoLevel then "\x1b[32m"
  else if level = logrus.WarnLevel then "\x1b[33m"
  else if level = logrus.ErrorLevel ∨ level = logrus.FatalLevel ∨ level = logrus.PanicLevel then
    "\x1b[31m"
  else "\x1b[37m"

/-- The value of `fmt.Sprintf("%s=%v", k, v)`. -/
def fieldPart (kv : String × Value) : String :=
  kv.1 ++ "=" ++ kv.2.fmtV

/-- The method `consoleFormatter.Format`. -/
def consoleFormatter.Format : ConsoleFormatter := fun env entry =>
  let resetColor := "\x1b[0m"
  let timestamp := env.now
  let level := strings.ToUpper (logrus.LevelString entry.Level)
  let caller := getCaller env
  let fields :=
    if entry.Data.length > 0 then
      " " ++ strings.Join ((env.rangeOrder entry.Data).map fieldPart) " "
    else ""
  let message :=
    timestamp ++ " [" ++ levelColor entry.Level ++ level ++ resetColor ++ "] " ++
      caller.1 ++ "(" ++ toString caller.2 ++ ") - " ++ entry.Message ++ fields ++ "\n"
  (message, none)

/-- The function `NewConsoleFormatter`. -/
def NewConsoleFormatter : ConsoleFormatter :=
  consoleFormatter.Format

/-! ## logrus: logger and entry -/

namespace logrus

/-- The logger as `NewConsoleProvider` sets it up: output on `os.Stdout`, no
hook, no exit handler, `ExitFunc` left at `os.Exit`. -/
structure Logger where
  /-- The field `Formatter`. -/
  Formatter : ConsoleFormatter
  /-- The field `Level`. -/
  Level : logrus.Level

/-- How a call into logrus ends. -/
inductive Status where
  /-- The call returned. -/
  | returned
  /-- The call panicked. -/
  | panicked
  /-- The call ended the process with this status. -/
  | exited (code : Int)
  /-- The process died of SIGPIPE inside a write. -/
  | killed
  deriving DecidableEq

/-- The events of a call and how it ended. -/
structure Run where
  /-- The events, oldest first. -/
  trace : List Event
  /-- How the call ended. -/
  status : Status
  deriving DecidableEq

/-- The method `Logger.IsLevelEnabled`. -/
def Logger.IsLevelEnabled (logger : Logger) (level : logrus.Level) : Bool :=
  decide (logger.Level ≥ level)

/-- Whether `WithFields` refuses a value: a function or a pointer to one. -/
def isFunc : Value → Bool
  | .func _ => true
  | _ => false

/-- The method `Logger.WithFields`: a new entry holding the given fields,
those with a function value left out. -/
def Logger.WithFields (_logger : Logger) (fields : Fields) : Entry :=
  { Data := maps.Copy [] (fields.filter (fun e => !isFunc e.2)),
    Level := PanicLevel, Message := "" }

/-- The call `fmt.Fprintf(os.Stderr, ...)` of `Entry.write`, with the text it
prints: the error of the write is dropped, a broken pipe ends the process. -/
def reportOnStderr (env : Env) (text : String) : Run :=
  match env.stderrWrite text with
  | IOResult.sigpipe =>
    { trace := [Event.stderr text IOResult.sigpipe], status := Status.killed }
  | res => { trace := [Event.stderr text res], status := Status.returned }

/-- The method `Entry.write`: format, then write on the output; an error of
either is reported on standard error and not returned. -/
def Entry.write (logger : Logger) (env : Env) (entry : Entry) : Run :=
  match logger.Formatter env entry with
  | (_, some err) =>
    let r := reportOnStderr env ("Failed to obtain reader, " ++ err ++ "\n")
    { trace := Event.format entry :: r.trace, status := r.status }
  | (serialized, none) =>
    match env.stdoutWrite serialized with
    | IOResult.ok =>
      { trace := [Event.format entry, Event.stdout serialized IOResult.ok],
        status := Status.returned }
    | IOResult.sigpipe =>
      { trace := [Event.format entry, Event.stdout serialized IOResult.sigpipe],
        status := Status.killed }
    | IOResult.failed err =>
      let r := reportOnStderr env ("Failed to write to log, " ++ err ++ "\n")
      { trace := Event.format entry :: Event.stdout serialized (IOResult.failed err) :: r.trace,
        status := r.status }

/-- The method `Entry.log`: the panic at the Panic level follows the write. -/
def Entry.log (logger : Logger) (env : Env) (entry : Entry)
    (level : logrus.Level) (msg : String) : Run :=
  let newEntry := { entry with Level := level, Message := msg }
  let r := Entry.write logger env newEntry
  match r.status with
  | Status.returned =>
    if level ≤ PanicLevel then { trace := r.trace, status := Status.panicked } else r
  | _ => r

/-- The method `Entry.Log`. -/
def Entry.Log (logger : Logger) (env : Env) (entry : Entry)
    (level : logrus.Level) (msg : String) : Run :=
  if logger.IsLevelEnabled level then Entry.log logger env entry level msg
  else { trace := [], status := Status.returned }

/-- The method `Entry.Debug`. -/
def Entry.Debug (logger : Logger) (env : Env) (entry : Entry) (msg : String) : Run :=
  Entry.Log logger env entry DebugLevel msg

/-- The method `Entry.Info`. -/
def Entry.Info (logger : Logger) (env : Env) (entry : Entry) (msg : String) : Run :=
  Entry.Log logger env entry InfoLevel msg

/-- The method `Entry.Warn`. -/
def Entry.Warn (logger : Logger) (env : Env) (entry : Entry) (msg : String) : Run :=
  Entry.Log logger env entry WarnLevel msg

/-- The method `Entry.Error`. -/
def Entry.Error (logger : Logger) (env : Env) (entry : Entry) (msg : String) : Run :=
  Entry.Log logger env entry ErrorLevel msg

/-- The method `Entry.Fatal`: `entry.Log(FatalLevel, ...)`, then
`entry.Logger.Exit(1)`. -/
def Entry.Fatal (logger : Logger) (env : Env) (entry : Entry) (msg : String) : Run :=
  let r := Entry.Log logger env entry FatalLevel msg
  match r.status with
  | Status.returned => { trace := r.trace ++ [Event.exit 1], status := Status.exited 1 }
  | _ => r

end logrus

/-! ## console_provider.go -/

/-- Modelled from the spec: the declaration of `ProviderConfig` is not among
the source files.  Its two uses fix what is read of it: the field
`config.Level`, which `ShouldLog` compares with the level of the message, and
the method `config.GetLevel()`, whose string `NewConsoleProvider` parses (the
level setting expressed as a string, section 6).  They are two inputs. -/
structure ProviderConfig where
  /-- The field `Level`. -/
  Level : sglogger.Level
  /-- The result of the method `GetLevel()`. -/
  GetLevel : String
  deriving DecidableEq

/-- The type `consoleProvider`. -/
structure consoleProvider where
  /-- The field `logrus`. -/
  logrus : logrus.Logger
  /-- The field `config`. -/
  config : ProviderConfig

/-- The function `NewConsoleProvider`. -/
def NewConsoleProvider (config : ProviderConfig) (formatter : ConsoleFormatter) :
    consoleProvider :=
  let level :=
    match logrus.ParseLevel config.GetLevel with
    | some l => l
    | none => logrus.InfoLevel
  { logrus := { Formatter := formatter, Level := level }, config := config }

/-- How a call of `Write` ends. -/
inductive WriteResult where
  /-- The call returned this error (`none` for nil). -/
  | returned (err : Option String)
  /-- The call panicked. -/
  | panicked
  /-- The call ended the process with this status and did not return. -/
  | exited (code : Int)
  /-- The process died of SIGPIPE inside a write and the call did not return. -/
  | killed
  deriving DecidableEq

/-- The events of a call of `Write` and how it ended. -/
structure Outcome where
  /-- The events, oldest first. -/
  trace : List Event
  /-- How the call ended. -/
  result : WriteResult
  deriving DecidableEq

/-- The method `consoleProvider.ShouldLog`. -/
def consoleProvider.ShouldLog (p : consoleProvider) (_ctx : Context)
    (level : sglogger.Level) : Bool :=
  decide (level ≥ p.config.Level)

/-- The statements of `Write` after a call into logrus: `return nil` when the
call returned. -/
def afterLog (r : logrus.Run) : Outcome :=
  match r.status with
  | logrus.Status.returned => { trace := r.trace, result := WriteResult.returned none }
  | logrus.Status.panicked => { trace := r.trace, result := WriteResult.panicked }
  | logrus.Status.exited code => { trace := r.trace, result := WriteResult.exited code }
  | logrus.Status.killed => { trace := r.trace, result := WriteResult.killed }

/-- The method `consoleProvider.Write`. -/
def consoleProvider.Write (p : consoleProvider) (env : Env) (ctx : Context)
    (level : sglogger.Level) (message : String) (fields : Fields) : Outcome :=
  if !p.ShouldLog ctx level then { trace := [], result := WriteResult.returned none }
  else
    let logrusFields := maps.Copy [] fields
    let entry := p.logrus.WithFields logrusFields
    if level = sglogger.LevelDebug then afterLog (logrus.Entry.Debug p.logrus env entry message)
    else if level = sglogger.LevelInfo then afterLog (logrus.Entry.Info p.logrus env entry message)
    else if level = sglogger.LevelWarn then afterLog (logrus.Entry.Warn p.logrus env entry message)
    else if level = sglogger.LevelError then
      afterLog (logrus.Entry.Error p.logrus env entry message)
    else if level = sglogger.LevelFatal then
      afterLog (logrus.Entry.Fatal p.logrus env entry message)
    else { trace := [], result := WriteResult.returned none }

/-- The method `consoleProvider.Close`. -/
def consoleProvider.Close (_p : consoleProvider) (_ctx : Context) : Option String :=
  none

/-! ## Notions the statements use -/

/-- Whether an event is a write on standard output. -/
def Event.isStdout : Event → Bool
  | Event.stdout _ _ => true
  | _ => false

/-- Whether an event is a write that met a broken pipe. -/
def Event.isSigpipe : Event → Bool
  | Event.stdout _ IOResult.sigpipe => true
  | Event.stderr _ IOResult.sigpipe => true
  | _ => false

/-- Whether a call made a write on standard output. -/
def Outcome.emitted (o : Outcome) : Bool :=
  o.trace.any Event.isStdout

/-- A frame of the call stack as `getCaller` sees it. -/
structure Frame where
  /-- The name of the function. -/
  funcName : String
  /-- The path of the file. -/
  file : String
  /-- The line. -/
  line : Int
  deriving DecidableEq

/-- The frame at a depth: resolvable when both `runtime.Caller` and
`runtime.FuncForPC` answer. -/
def frameAt (env : Env) (i : Nat) : Option Frame :=
  match env.Caller i with
  | none => none
  | some (pc, file, line) =>
    match env.FuncForPC pc with
    | none => none
    | some funcName => some { funcName := funcName, file := file, line := line }

/-- A frame qualifies when neither its function name nor its file path
contains `logrus` or `logger`. -/
def qualifies (f : Frame) : Bool :=
  !strings.Contains f.funcName "logrus" && !strings.Contains f.file "logrus" &&
    !strings.Contains f.funcName "logger" && !strings.Contains f.file "logger"

/-- The first qualifying frame among the depths 3 to 10. -/
def firstQualifying (env : Env) : Option Frame :=
  ([3, 4, 5, 6, 7, 8, 9, 10].filterMap (frameAt env)).find? qualifies

/-- The upper-case names of the levels, as `Format` prints them. -/
def specLevelName (level : logrus.Level) : String :=
  match level with
  | 6 => "TRACE"
  | 5 => "DEBUG"
  | 4 => "INFO"
  | 3 => "WARNING"
  | 2 => "ERROR"
  | 1 => "FATAL"
  | 0 => "PANIC"
  | _ => "UNKNOWN"

/-- The colour table of section 6 of the specification, by level. -/
def specColor (level : logrus.Level) : String :=
  match level with
  | 5 => "\x1b[36m"
  | 4 => "\x1b[32m"
  | 3 => "\x1b[33m"
  | 2 => "\x1b[31m"
  | 1 => "\x1b[31m"
  | 0 => "\x1b[31m"
  | _ => "\x1b[37m"

/-- The logrus level at which the `switch` of `Write` logs a message of a
severity, `none` for a value that no `case` names. -/
def logrusLevelOf (L : sglogger.Level) : Option logrus.Level :=
  if L = sglogger.LevelDebug then some logrus.DebugLevel
  else if L = sglogger.LevelInfo then some logrus.InfoLevel
  else if L = sglogger.LevelWarn then some logrus.WarnLevel
  else if L = sglogger.LevelError then some logrus.ErrorLevel
  else if L = sglogger.LevelFatal then some logrus.FatalLevel
  else none

/-- The entry `Write` hands to the formatter for a message logged at a level. -/
def entryOf (p : consoleProvider) (fields : Fields) (l : logrus.Level) (message : String) :
    logrus.Entry :=
  { p.logrus.WithFields (maps.Copy [] fields) with Level := l, Message := message }

/-! ## Example inputs -/

/-- A call stack with two logrus frames above a frame of `main.go`, a clock, the
listing order as iteration order, and a standard output and a standard error
that accept writes. -/
def envExample : Env where
  now := "2024-01-15 10:30:45"
  Caller := fun i =>
    if i = 3 then some (1, "/go/pkg/mod/github.com/sirupsen/logrus@v1.9.3/entry.go", 304)
    else if i = 4 then some (2, "/go/pkg/mod/github.com/sirupsen/logrus@v1.9.3/entry.go", 341)
    else if i = 5 then some (3, "/home/dev/app/main.go", 25)
    else none
  FuncForPC := fun pc =>
    if pc = 1 then some "github.com/sirupsen/logrus.(*Entry).Log"
    else if pc = 2 then some "github.com/sirupsen/logrus.(*Entry).Info"
    else if pc = 3 then some "main.main"
    else none
  line_pos := by
    intro i pc file line fn h _
    dsimp only at h
    split_ifs at h <;> simp only [Option.some.injEq, Prod.mk.injEq] at h <;>
      (rw [← h.2.2]; decide)
  rangeOrder := fun m => m
  rangeOrder_perm := fun m => List.Perm.refl m
  stdoutWrite := fun _ => IOResult.ok
  stderrWrite := fun _ => IOResult.ok

/-- The same world with a closed pipe as standard output: every write meets
EPIPE and the process dies of SIGPIPE. -/
def envBrokenPipe : Env :=
  { envExample with stdoutWrite := fun _ => IOResult.sigpipe }

/-- A context that is neither cancelled nor bounded. -/
def ctxBackground : Context :=
  { done := false, deadline := none }

/-- The record of the example of section 8: level Info, message
"Application started", fields user_id=123. -/
def entryStarted : logrus.Entry :=
  { Data := [("user_id", Value.int 123)], Level := logrus.InfoLevel,
    Message := "Application started" }

/-! ## Lemmas on the string functions and on `Format` -/

theorem strings.startsWith_iff (sub s : List Char) :
    strings.startsWith sub s = true ↔ ∃ post, s = sub ++ post := by
  induction sub generalizing s with
  | nil => simp [strings.startsWith]
  | cons a as ih =>
    cases s with
    | nil => simp [strings.startsWith]
    | cons b bs =>
      simp only [strings.startsWith, Bool.and_eq_true, decide_eq_true_eq, ih, List.cons_append,
        List.cons.injEq]
      constructor
      · rintro ⟨rfl, post, rfl⟩
        exact ⟨post, rfl, rfl⟩
      · rintro ⟨post, rfl, rfl⟩
        exact ⟨rfl, post, rfl⟩

theorem strings.containsData_iff (sub s : List Char) :
    strings.containsData sub s = true ↔ ∃ pre post, s = pre ++ sub ++ post := by
  induction s with
  | nil =>
    simp only [strings.containsData, strings.startsWith_iff]
    constructor
    · rintro ⟨post, h⟩
      exact ⟨[], post, by simpa using h⟩
    · rintro ⟨pre, post, h⟩
      have h1 : pre ++ sub ++ post = [] := h.symm
      simp only [List.append_eq_nil] at h1
      exact ⟨[], by simp [h1.1.2]⟩
  | cons c cs ih =>
    simp only [strings.containsData, Bool.or_eq_true, strings.startsWith_iff, ih]
    constructor
    · rintro (⟨post, h⟩ | ⟨pre, post, h⟩)
      · exact ⟨[], post, by simpa using h⟩
      · exact ⟨c :: pre, post, by simp [h]⟩
    · rintro ⟨pre, post, h⟩
      cases pre with
      | nil => exact Or.inl ⟨post, by simpa using h⟩
      | cons d pre =>
        simp only [List.cons_append, List.cons.injEq] at h
        exact Or.inr ⟨pre, post, by simpa using h.2⟩

/-- Go `strings.Contains` holds exactly of the texts that have the block
somewhere inside. -/
theorem strings.Contains_iff (s sub : String) :
    strings.Contains s sub = true ↔ ∃ pre post : String, s = pre ++ sub ++ post := by
  unfold strings.Contains
  rw [strings.containsData_iff]
  constructor
  · rintro ⟨pre, post, h⟩
    refine ⟨String.mk pre, String.mk post, ?_⟩
    apply String.ext
    simp [String.data_append, h]
  · rintro ⟨pre, post, h⟩
    exact ⟨pre.data, post.data, by simp [h, String.data_append]⟩

theorem levelColor_eq_specColor (level : logrus.Level) : levelColor level = specColor level := by
  match level with
  | 0 => rfl
  | 1 => rfl
  | 2 => rfl
  | 3 => rfl
  | 4 => rfl
  | 5 => rfl
  | n + 6 =>
    have h : specColor (n + 6) = "\x1b[37m" := rfl
    rw [h]
    simp [levelColor, logrus.DebugLevel, logrus.InfoLevel, logrus.WarnLevel, logrus.ErrorLevel,
      logrus.FatalLevel, logrus.PanicLevel]

/-! ## The claims on `ShouldLog` and `Format` -/

/-- Claim C1: for every provider, context and level, `ShouldLog` answers true exactly
when the level is at least the threshold `config.Level`; with the threshold Warn
it answers false for Debug and Info and true for Warn, Error and Fatal. -/
theorem C1_shouldLog_iff_ge (p : consoleProvider) (ctx : Context) (L : sglogger.Level)
    (logger : logrus.Logger) (levelText : String) :
    (p.ShouldLog ctx L = true ↔ L ≥ p.config.Level) ∧
    (consoleProvider.ShouldLog ⟨logger, ⟨sglogger.LevelWarn, levelText⟩⟩ ctx
        sglogger.LevelDebug = false ∧
      consoleProvider.ShouldLog ⟨logger, ⟨sglogger.LevelWarn, levelText⟩⟩ ctx
        sglogger.LevelInfo = false ∧
      consoleProvider.ShouldLog ⟨logger, ⟨sglogger.LevelWarn, levelText⟩⟩ ctx
        sglogger.LevelWarn = true ∧
      consoleProvider.ShouldLog ⟨logger, ⟨sglogger.LevelWarn, levelText⟩⟩ ctx
        sglogger.LevelError = true ∧
      consoleProvider.ShouldLog ⟨logger, ⟨sglogger.LevelWarn, levelText⟩⟩ ctx
        sglogger.LevelFatal = true) := by
  refine ⟨by simp [consoleProvider.ShouldLog], ?_, ?_, ?_, ?_, ?_⟩ <;>
    simp [consoleProvider.ShouldLog, sglogger.LevelWarn, sglogger.LevelDebug,
      sglogger.LevelInfo, sglogger.LevelError, sglogger.LevelFatal]

/-- Claim C3: when `ShouldLog` answers false, `Write` returns nil and does nothing: no
call of the formatter, no write on standard output, no event at all. -/
theorem C3_filtered_write_is_noop (p : consoleProvider) (env : Env) (ctx : Context)
    (L : sglogger.Level) (message : String) (fields : Fields)
    (h : p.ShouldLog ctx L = false) :
    p.Write env ctx L message fields = { trace := [], result := WriteResult.returned none } := by
  simp [consoleProvider.Write, h]

/-- Claim C3 at a provider with the threshold Warn and an Info message. -/
theorem C3_filtered_write_is_noop_witness :
    (NewConsoleProvider ⟨sglogger.LevelWarn, "warn"⟩ NewConsoleFormatter).ShouldLog
        ctxBackground sglogger.LevelInfo = false ∧
      (NewConsoleProvider ⟨sglogger.LevelWarn, "warn"⟩ NewConsoleFormatter).Write envExample
        ctxBackground sglogger.LevelInfo "cache miss" [("key", Value.str "a")] =
        { trace := [], result := WriteResult.returned none } :=
  ⟨by decide, C3_filtered_write_is_noop _ _ _ _ _ _ (by decide)⟩

/-- The line of `Format`, with the fields in the order the `range` statement
visits them. -/
theorem consoleFormatter.Format_eq (env : Env) (entry : logrus.Entry) :
    consoleFormatter.Format env entry =
      (env.now ++ " [" ++ levelColor entry.Level ++
          strings.ToUpper (logrus.LevelString entry.Level) ++ "\x1b[0m" ++ "] " ++
          (getCaller env).1 ++ "(" ++ toString (getCaller env).2 ++ ") - " ++
          entry.Message ++
          (if entry.Data = [] then ""
            else " " ++ strings.Join ((env.rangeOrder entry.Data).map fieldPart) " ") ++ "\n",
        none) := by
  by_cases h : entry.Data = []
  · simp [consoleFormatter.Format, h]
  · have hpos : entry.Data.length > 0 := List.length_pos.mpr h
    simp [consoleFormatter.Format, h, hpos]

theorem strings.Join_cons_append (x y sep : String) (rest : List String) :
    strings.Join ((x ++ y) :: rest) sep = x ++ strings.Join (y :: rest) sep := by
  cases rest with
  | nil => rfl
  | cons r rs => simp [strings.Join, String.append_assoc]

theorem strings.intercalate_go_eq (sep : String) (parts : List String) (acc : String) :
    String.intercalate.go acc sep parts = strings.Join (acc :: parts) sep := by
  induction parts generalizing acc with
  | nil => rfl
  | cons a rest ih =>
    rw [String.intercalate.go, ih, String.append_assoc, strings.Join_cons_append,
      strings.Join_cons_append]
    simp only [strings.Join, String.append_assoc]

/-- Go `strings.Join` is the library function that puts the separator between
the elements. -/
theorem strings.Join_eq_intercalate (parts : List String) (sep : String) :
    strings.Join parts sep = sep.intercalate parts := by
  cases parts with
  | nil => rfl
  | cons a rest =>
    rw [String.intercalate, strings.intercalate_go_eq]

/-- The upper-case form of `Level.String()` for every level value. -/
theorem ToUpper_LevelString (level : logrus.Level) :
    strings.ToUpper (logrus.LevelString level) = specLevelName level := by
  match level with
  | 0 => decide
  | 1 => decide
  | 2 => decide
  | 3 => decide
  | 4 => decide
  | 5 => decide
  | 6 => decide
  | n + 7 =>
    have h1 : specLevelName (n + 7) = "UNKNOWN" := rfl
    have h2 : logrus.LevelString (n + 7) = "unknown" := by
      simp [logrus.LevelString, logrus.MarshalText, logrus.TraceLevel, logrus.DebugLevel,
        logrus.InfoLevel, logrus.WarnLevel, logrus.ErrorLevel, logrus.FatalLevel,
        logrus.PanicLevel]
    rw [h1, h2]
    decide

/-- The text of a field: the key, an equals sign and the `%v` text of the
value. -/
theorem fieldPart_eq (kv : String × Value) :
    fieldPart kv = kv.1 ++ "=" ++
      (match kv.2 with
        | Value.int n => toString n
        | Value.str s => s
        | Value.bool true => "true"
        | Value.bool false => "false"
        | Value.null => "<nil>"
        | Value.func text => text
        | Value.other text => text) := by
  obtain ⟨k, v⟩ := kv
  cases v with
  | bool b => cases b <;> rfl
  | _ => rfl

/-- Claim C4: with the timestamp `env.now` and the caller `getCaller env`, `Format`
returns the timestamp, the coloured upper-case level name in brackets (the name
logrus gives the level, so WARNING for Warn), the file and line, the message,
then nothing when there is no field and otherwise a space and the `key=value`
texts of the fields, each once, joined by single spaces, and a final newline.
A value is printed as `%v` prints it: an integer in decimal, a string as it
is, a boolean as true or false, nil as `<nil>`. -/
theorem C4_format_layout (env : Env) (entry : logrus.Entry) :
    (∃ parts : List String,
      parts.Perm (entry.Data.map (fun kv => kv.1 ++ "=" ++
        (match kv.2 with
          | Value.int n => toString n
          | Value.str s => s
          | Value.bool true => "true"
          | Value.bool false => "false"
          | Value.null => "<nil>"
          | Value.func text => text
          | Value.other text => text))) ∧
      consoleFormatter.Format env entry =
        (env.now ++ " [" ++ specColor entry.Level ++ specLevelName entry.Level ++
            "\x1b[0m" ++ "] " ++
            (getCaller env).1 ++ "(" ++ toString (getCaller env).2 ++ ") - " ++
            entry.Message ++
            (if entry.Data = [] then "" else " " ++ " ".intercalate parts) ++ "\n",
          none)) ∧
    (specLevelName logrus.DebugLevel = "DEBUG" ∧ specLevelName logrus.InfoLevel = "INFO" ∧
      specLevelName logrus.WarnLevel = "WARNING" ∧ specLevelName logrus.ErrorLevel = "ERROR" ∧
      specLevelName logrus.FatalLevel = "FATAL" ∧ specLevelName logrus.PanicLevel = "PANIC" ∧
      specLevelName logrus.TraceLevel = "TRACE" ∧
      ∀ k : Nat, specLevelName (k + 7) = "UNKNOWN") ∧
    (specColor logrus.DebugLevel = "\x1b[36m" ∧ specColor logrus.InfoLevel = "\x1b[32m" ∧
      specColor logrus.WarnLevel = "\x1b[33m" ∧ specColor logrus.ErrorLevel = "\x1b[31m" ∧
      specColor logrus.FatalLevel = "\x1b[31m" ∧ specColor logrus.PanicLevel = "\x1b[31m" ∧
      ∀ k : Nat, specColor (k + 6) = "\x1b[37m") := by
  refine ⟨⟨(env.rangeOrder entry.Data).map fieldPart, ?_, ?_⟩,
    ⟨rfl, rfl, rfl, rfl, rfl, rfl, rfl, fun _ => rfl⟩,
    ⟨rfl, rfl, rfl, rfl, rfl, rfl, fun _ => rfl⟩⟩
  · have hmap : entry.Data.map (fun kv => kv.1 ++ "=" ++
        (match kv.2 with
          | Value.int n => toString n
          | Value.str s => s
          | Value.bool true => "true"
          | Value.bool false => "false"
          | Value.null => "<nil>"
          | Value.func text => text
          | Value.other text => text)) = entry.Data.map fieldPart :=
      List.map_congr_left (fun kv _ => (fieldPart_eq kv).symm)
    rw [hmap]
    exact (env.rangeOrder_perm entry.Data).map _
  · rw [consoleFormatter.Format_eq, levelColor_eq_specColor, ToUpper_LevelString,
      strings.Join_eq_intercalate]

/-- Claim C5: the colour `Format` puts before the level name is the one of the table
(cyan for Debug, green for Info, yellow for Warn, red for Error, Fatal and
Panic, white for every other value), and `Format` returns a nil error. -/
theorem C5_color_table (env : Env) (entry : logrus.Entry) :
    (consoleFormatter.Format env entry).2 = none ∧
    (∃ rest : String, (consoleFormatter.Format env entry).1 =
      env.now ++ " [" ++ specColor entry.Level ++
        strings.ToUpper (logrus.LevelString entry.Level) ++ rest) ∧
    specColor logrus.DebugLevel = "\x1b[36m" ∧ specColor logrus.InfoLevel = "\x1b[32m" ∧
    specColor logrus.WarnLevel = "\x1b[33m" ∧ specColor logrus.ErrorLevel = "\x1b[31m" ∧
    specColor logrus.FatalLevel = "\x1b[31m" ∧ specColor logrus.PanicLevel = "\x1b[31m" ∧
    (∀ k : Nat, specColor (k + 6) = "\x1b[37m") := by
  refine ⟨rfl, ?_, rfl, rfl, rfl, rfl, rfl, rfl, fun _ => rfl⟩
  rw [consoleFormatter.Format_eq, levelColor_eq_specColor]
  simp only [String.append_assoc]
  exact ⟨_, rfl⟩

/-! ## Lemmas on logrus and on `Write` -/

theorem logrusLevelOf_pos (L : sglogger.Level) (l : Nat)
    (h : logrusLevelOf L = some l) : 1 ≤ l := by
  unfold logrusLevelOf at h
  split_ifs at h <;> (cases h; decide)

theorem logrus.reportOnStderr_cases (env : Env) (text : String) :
    (env.stderrWrite text = IOResult.sigpipe ∧
      logrus.reportOnStderr env text =
        { trace := [Event.stderr text IOResult.sigpipe], status := logrus.Status.killed }) ∨
    (env.stderrWrite text ≠ IOResult.sigpipe ∧
      logrus.reportOnStderr env text =
        { trace := [Event.stderr text (env.stderrWrite text)],
          status := logrus.Status.returned }) := by
  unfold logrus.reportOnStderr
  rcases h : env.stderrWrite text with _ | e | _
  · exact Or.inr ⟨by simp, rfl⟩
  · exact Or.inr ⟨by simp, rfl⟩
  · exact Or.inl ⟨rfl, rfl⟩

/-- The method `Entry.write` by the answer of the formatter and of the two
writes. -/
theorem logrus.Entry.write_eq (logger : logrus.Logger) (env : Env) (entry : logrus.Entry) :
    logrus.Entry.write logger env entry =
      match (logger.Formatter env entry).2 with
      | some err =>
        if env.stderrWrite ("Failed to obtain reader, " ++ err ++ "\n") = IOResult.sigpipe then
          { trace := [Event.format entry,
              Event.stderr ("Failed to obtain reader, " ++ err ++ "\n") IOResult.sigpipe],
            status := logrus.Status.killed }
        else
          { trace := [Event.format entry,
              Event.stderr ("Failed to obtain reader, " ++ err ++ "\n")
                (env.stderrWrite ("Failed to obtain reader, " ++ err ++ "\n"))],
            status := logrus.Status.returned }
      | none =>
        match env.stdoutWrite (logger.Formatter env entry).1 with
        | IOResult.ok =>
          { trace := [Event.format entry,
              Event.stdout (logger.Formatter env entry).1 IOResult.ok],
            status := logrus.Status.returned }
        | IOResult.sigpipe =>
          { trace := [Event.format entry,
              Event.stdout (logger.Formatter env entry).1 IOResult.sigpipe],
            status := logrus.Status.killed }
        | IOResult.failed err =>
          if env.stderrWrite ("Failed to write to log, " ++ err ++ "\n") = IOResult.sigpipe then
            { trace := [Event.format entry,
                Event.stdout (logger.Formatter env entry).1 (IOResult.failed err),
                Event.stderr ("Failed to write to log, " ++ err ++ "\n") IOResult.sigpipe],
              status := logrus.Status.killed }
          else
            { trace := [Event.format entry,
                Event.stdout (logger.Formatter env entry).1 (IOResult.failed err),
                Event.stderr ("Failed to write to log, " ++ err ++ "\n")
                  (env.stderrWrite ("Failed to write to log, " ++ err ++ "\n"))],
              status := logrus.Status.returned } := by
  unfold logrus.Entry.write
  rcases hf : logger.Formatter env entry with ⟨bytes, _ | err⟩
  · dsimp only
    rcases hw : env.stdoutWrite bytes with _ | e | _
    · rfl
    · dsimp only
      rcases logrus.reportOnStderr_cases env ("Failed to write to log, " ++ e ++ "\n") with
        ⟨h1, h2⟩ | ⟨h1, h2⟩
      · rw [h2, if_pos h1]
      · rw [h2, if_neg h1]
    · rfl
  · dsimp only
    rcases logrus.reportOnStderr_cases env ("Failed to obtain reader, " ++ err ++ "\n") with
      ⟨h1, h2⟩ | ⟨h1, h2⟩
    · rw [h2, if_pos h1]
    · rw [h2, if_neg h1]

theorem logrus.Entry.write_status (logger : logrus.Logger) (env : Env) (entry : logrus.Entry) :
    (logrus.Entry.write logger env entry).status = logrus.Status.returned ∨
      (logrus.Entry.write logger env entry).status = logrus.Status.killed := by
  rw [logrus.Entry.write_eq]
  rcases (logger.Formatter env entry).2 with _ | err
  · dsimp only
    rcases env.stdoutWrite (logger.Formatter env entry).1 with _ | e | _
    · exact Or.inl rfl
    · dsimp only
      split_ifs
      · exact Or.inr rfl
      · exact Or.inl rfl
    · exact Or.inr rfl
  · dsimp only
    split_ifs
    · exact Or.inr rfl
    · exact Or.inl rfl

theorem logrus.Entry.write_emitted (logger : logrus.Logger) (env : Env) (entry : logrus.Entry) :
    (logrus.Entry.write logger env entry).trace.any Event.isStdout = true ↔
      (logger.Formatter env entry).2 = none := by
  rw [logrus.Entry.write_eq]
  rcases (logger.Formatter env entry).2 with _ | err
  · dsimp only
    rcases env.stdoutWrite (logger.Formatter env entry).1 with _ | e | _
    · simp [Event.isStdout]
    · dsimp only
      split_ifs <;> simp [Event.isStdout]
    · simp [Event.isStdout]
  · dsimp only
    split_ifs <;> simp [Event.isStdout]

theorem logrus.Entry.write_no_exit (logger : logrus.Logger) (env : Env) (entry : logrus.Entry)
    (code : Int) : Event.exit code ∉ (logrus.Entry.write logger env entry).trace := by
  rw [logrus.Entry.write_eq]
  rcases (logger.Formatter env entry).2 with _ | err
  · dsimp only
    rcases env.stdoutWrite (logger.Formatter env entry).1 with _ | e | _
    · simp
    · dsimp only
      split_ifs <;> simp
    · simp
  · dsimp only
    split_ifs <;> simp

theorem logrus.Entry.write_killed_iff (logger : logrus.Logger) (env : Env)
    (entry : logrus.Entry) :
    (logrus.Entry.write logger env entry).status = logrus.Status.killed ↔
      (logrus.Entry.write logger env entry).trace.any Event.isSigpipe = true := by
  rw [logrus.Entry.write_eq]
  rcases (logger.Formatter env entry).2 with _ | err
  · dsimp only
    rcases hw : env.stdoutWrite (logger.Formatter env entry).1 with _ | e | _
    · simp [Event.isSigpipe]
    · dsimp only
      split_ifs with h
      · simp [Event.isSigpipe]
      · rcases hs : env.stderrWrite ("Failed to write to log, " ++ e ++ "\n") with _ | e2 | _
        · simp [Event.isSigpipe]
        · simp [Event.isSigpipe]
        · exact absurd hs h
    · simp [Event.isSigpipe]
  · dsimp only
    split_ifs with h
    · simp [Event.isSigpipe]
    · rcases hs : env.stderrWrite ("Failed to obtain reader, " ++ err ++ "\n") with _ | e2 | _
      · simp [Event.isSigpipe]
      · simp [Event.isSigpipe]
      · exact absurd hs h

theorem logrus.Entry.Log_eq (logger : logrus.Logger) (env : Env) (entry : logrus.Entry)
    (l : Nat) (msg : String) (hl : 1 ≤ l) :
    logrus.Entry.Log logger env entry l msg =
      if logger.Level ≥ l then
        logrus.Entry.write logger env { entry with Level := l, Message := msg }
      else { trace := [], status := logrus.Status.returned } := by
  have h0 : ¬ l ≤ logrus.PanicLevel := by
    show ¬ l ≤ (0 : Nat)
    omega
  by_cases h : logger.Level ≥ l
  · rw [if_pos h]
    simp only [logrus.Entry.Log, logrus.Logger.IsLevelEnabled, h, decide_True, if_true,
      logrus.Entry.log]
    rcases logrus.Entry.write_status logger env { entry with Level := l, Message := msg } with
      hs | hs
    · rw [hs]
      dsimp only
      rw [if_neg h0]
    · rw [hs]
  · rw [if_neg h]
    simp [logrus.Entry.Log, logrus.Logger.IsLevelEnabled, h]

theorem afterLog_write (w : logrus.Run)
    (h : w.status = logrus.Status.returned ∨ w.status = logrus.Status.killed) :
    afterLog w =
      if w.status = logrus.Status.killed then
        { trace := w.trace, result := WriteResult.killed }
      else { trace := w.trace, result := WriteResult.returned none } := by
  unfold afterLog
  rcases h with h | h <;> rw [h] <;> simp

theorem afterLog_Log (logger : logrus.Logger) (env : Env) (entry : logrus.Entry) (l : Nat)
    (msg : String) (hl : 1 ≤ l) :
    afterLog (logrus.Entry.Log logger env entry l msg) =
      if logger.Level ≥ l then
        if (logrus.Entry.write logger env { entry with Level := l, Message := msg }).status =
            logrus.Status.killed then
          { trace := (logrus.Entry.write logger env
              { entry with Level := l, Message := msg }).trace,
            result := WriteResult.killed }
        else
          { trace := (logrus.Entry.write logger env
              { entry with Level := l, Message := msg }).trace,
            result := WriteResult.returned none }
      else { trace := [], result := WriteResult.returned none } := by
  rw [logrus.Entry.Log_eq _ _ _ _ _ hl]
  by_cases h : logger.Level ≥ l
  · rw [if_pos h, if_pos h, afterLog_write _ (logrus.Entry.write_status _ _ _)]
  · rw [if_neg h, if_neg h]
    rfl

theorem afterLog_Fatal (logger : logrus.Logger) (env : Env) (entry : logrus.Entry)
    (msg : String) :
    afterLog (logrus.Entry.Fatal logger env entry msg) =
      if logger.Level ≥ logrus.FatalLevel then
        if (logrus.Entry.write logger env
            { entry with Level := logrus.FatalLevel, Message := msg }).status =
            logrus.Status.killed then
          { trace := (logrus.Entry.write logger env
              { entry with Level := logrus.FatalLevel, Message := msg }).trace,
            result := WriteResult.killed }
        else
          { trace := (logrus.Entry.write logger env
              { entry with Level := logrus.FatalLevel, Message := msg }).trace ++
              [Event.exit 1],
            result := WriteResult.exited 1 }
      else { trace := [Event.exit 1], result := WriteResult.exited 1 } := by
  unfold logrus.Entry.Fatal
  rw [logrus.Entry.Log_eq _ _ _ logrus.FatalLevel _ (by decide)]
  by_cases h : logger.Level ≥ logrus.FatalLevel
  · rw [if_pos h, if_pos h]
    rcases logrus.Entry.write_status logger env
      { entry with Level := logrus.FatalLevel, Message := msg } with hs | hs
    · simp [hs, afterLog]
    · simp [hs, afterLog]
  · rw [if_neg h, if_neg h]
    rfl

/-- The method `Write` in one expression. -/
theorem consoleProvider.Write_eq (p : consoleProvider) (env : Env) (ctx : Context)
    (L : sglogger.Level) (message : String) (fields : Fields) :
    p.Write env ctx L message fields =
      if L < p.config.Level then { trace := [], result := WriteResult.returned none }
      else
        match logrusLevelOf L with
        | none => { trace := [], result := WriteResult.returned none }
        | some l =>
          if p.logrus.Level ≥ l then
            if (logrus.Entry.write p.logrus env (entryOf p fields l message)).status =
                logrus.Status.killed then
              { trace := (logrus.Entry.write p.logrus env (entryOf p fields l message)).trace,
                result := WriteResult.killed }
            else if L = sglogger.LevelFatal then
              { trace := (logrus.Entry.write p.logrus env (entryOf p fields l message)).trace ++
                  [Event.exit 1],
                result := WriteResult.exited 1 }
            else
              { trace := (logrus.Entry.write p.logrus env (entryOf p fields l message)).trace,
                result := WriteResult.returned none }
          else if L = sglogger.LevelFatal then
            { trace := [Event.exit 1], result := WriteResult.exited 1 }
          else { trace := [], result := WriteResult.returned none } := by
  by_cases hlt : L < p.config.Level
  · have : ¬ L ≥ p.config.Level := not_le.mpr hlt
    simp [consoleProvider.Write, consoleProvider.ShouldLog, hlt]
  · have hge : p.config.Level ≤ L := not_lt.mp hlt
    simp only [consoleProvider.Write, consoleProvider.ShouldLog, hlt, if_false, ge_iff_le, hge,
      decide_True, Bool.not_true, Bool.false_eq_true]
    unfold logrusLevelOf
    by_cases h0 : L = sglogger.LevelDebug
    · subst h0
      rw [if_pos rfl, if_pos rfl]
      unfold logrus.Entry.Debug
      rw [afterLog_Log _ _ _ logrus.DebugLevel _ (by decide)]
      simp [entryOf, sglogger.LevelDebug, sglogger.LevelFatal]
    rw [if_neg h0, if_neg h0]
    by_cases h1 : L = sglogger.LevelInfo
    · subst h1
      rw [if_pos rfl, if_pos rfl]
      unfold logrus.Entry.Info
      rw [afterLog_Log _ _ _ logrus.InfoLevel _ (by decide)]
      simp [entryOf, sglogger.LevelInfo, sglogger.LevelFatal]
    rw [if_neg h1, if_neg h1]
    by_cases h2 : L = sglogger.LevelWarn
    · subst h2
      rw [if_pos rfl, if_pos rfl]
      unfold logrus.Entry.Warn
      rw [afterLog_Log _ _ _ logrus.WarnLevel _ (by decide)]
      simp [entryOf, sglogger.LevelWarn, sglogger.LevelFatal]
    rw [if_neg h2, if_neg h2]
    by_cases h3 : L = sglogger.LevelError
    · subst h3
      rw [if_pos rfl, if_pos rfl]
      unfold logrus.Entry.Error
      rw [afterLog_Log _ _ _ logrus.ErrorLevel _ (by decide)]
      simp [entryOf, sglogger.LevelError, sglogger.LevelFatal]
    rw [if_neg h3, if_neg h3]
    by_cases h4 : L = sglogger.LevelFatal
    · subst h4
      rw [if_pos rfl, if_pos rfl]
      rw [afterLog_Fatal]
      simp [entryOf]
    rw [if_neg h4, if_neg h4]

theorem consoleProvider.Write_killed_iff (p : consoleProvider) (env : Env) (ctx : Context)
    (L : sglogger.Level) (message : String) (fields : Fields) :
    (p.Write env ctx L message fields).result = WriteResult.killed ↔
      (p.Write env ctx L message fields).trace.any Event.isSigpipe = true := by
  rw [consoleProvider.Write_eq]
  by_cases hlt : L < p.config.Level
  · rw [if_pos hlt]
    simp
  · rw [if_neg hlt]
    rcases logrusLevelOf L with _ | l
    · simp
    · dsimp only
      by_cases hen : p.logrus.Level ≥ l
      · rw [if_pos hen]
        have hk := logrus.Entry.write_killed_iff p.logrus env (entryOf p fields l message)
        by_cases hs : (logrus.Entry.write p.logrus env (entryOf p fields l message)).status =
            logrus.Status.killed
        · rw [if_pos hs]
          exact ⟨fun _ => hk.mp hs, fun _ => rfl⟩
        · rw [if_neg hs]
          have hno : ¬ (logrus.Entry.write p.logrus env
              (entryOf p fields l message)).trace.any Event.isSigpipe = true :=
            fun h => hs (hk.mpr h)
          by_cases hF : L = sglogger.LevelFatal
          · rw [if_pos hF]
            have happ : ((logrus.Entry.write p.logrus env (entryOf p fields l message)).trace ++
                [Event.exit 1]).any Event.isSigpipe =
                (logrus.Entry.write p.logrus env
                  (entryOf p fields l message)).trace.any Event.isSigpipe := by
              simp [Event.isSigpipe]
            constructor
            · intro h
              cases h
            · intro h
              exact absurd (happ ▸ h) hno
          · rw [if_neg hF]
            constructor
            · intro h
              cases h
            · intro h
              exact absurd h hno
      · rw [if_neg hen]
        by_cases hF : L = sglogger.LevelFatal
        · rw [if_pos hF]
          simp [Event.isSigpipe]
        · rw [if_neg hF]
          simp

theorem NewConsoleProvider_level (cfg : ProviderConfig) (fmt : ConsoleFormatter) :
    (NewConsoleProvider cfg fmt).logrus.Level =
      (logrus.ParseLevel cfg.GetLevel).getD logrus.InfoLevel := by
  unfold NewConsoleProvider
  cases logrus.ParseLevel cfg.GetLevel <;> rfl

theorem NewConsoleProvider_emitted_iff (cfg : ProviderConfig) (fmt : ConsoleFormatter) (env : Env)
    (ctx : Context) (L : sglogger.Level) (message : String) (fields : Fields) :
    ((NewConsoleProvider cfg fmt).Write env ctx L message fields).emitted = true ↔
      L ≥ cfg.Level ∧
        ∃ l, logrusLevelOf L = some l ∧
          (logrus.ParseLevel cfg.GetLevel).getD logrus.InfoLevel ≥ l ∧
          (fmt env (entryOf (NewConsoleProvider cfg fmt) fields l message)).2 = none := by
  unfold Outcome.emitted
  rw [consoleProvider.Write_eq, ← NewConsoleProvider_level cfg fmt]
  have hcfg : (NewConsoleProvider cfg fmt).config.Level = cfg.Level := rfl
  have hfmt : (NewConsoleProvider cfg fmt).logrus.Formatter = fmt := rfl
  rw [hcfg]
  by_cases hlt : L < cfg.Level
  · have hnot : ¬ L ≥ cfg.Level := not_le.mpr hlt
    rw [if_pos hlt]
    constructor
    · intro h
      simp at h
    · rintro ⟨h, -⟩
      exact absurd h hnot
  · have hge : L ≥ cfg.Level := not_lt.mp hlt
    rw [if_neg hlt]
    rcases hl : logrusLevelOf L with _ | l
    · constructor
      · intro h
        simp at h
      · rintro ⟨-, l, h, -⟩
        cases h
    · dsimp only
      have hw := logrus.Entry.write_emitted (NewConsoleProvider cfg fmt).logrus env
        (entryOf (NewConsoleProvider cfg fmt) fields l message)
      rw [hfmt] at hw
      have fin : ∀ b : Bool,
          (b = true ↔ (NewConsoleProvider cfg fmt).logrus.Level ≥ l ∧
            (fmt env (entryOf (NewConsoleProvider cfg fmt) fields l message)).2 = none) →
          (b = true ↔ L ≥ cfg.Level ∧ ∃ l0, some l = some l0 ∧
            (NewConsoleProvider cfg fmt).logrus.Level ≥ l0 ∧
            (fmt env (entryOf (NewConsoleProvider cfg fmt) fields l0 message)).2 = none) := by
        intro b hb
        rw [hb]
        constructor
        · rintro ⟨h1, h2⟩
          exact ⟨hge, l, rfl, h1, h2⟩
        · rintro ⟨-, l0, h0, h1, h2⟩
          cases h0
          exact ⟨h1, h2⟩
      apply fin
      by_cases hen : (NewConsoleProvider cfg fmt).logrus.Level ≥ l
      · rw [if_pos hen]
        split_ifs
        · rw [hw]
          exact ⟨fun h => ⟨hen, h⟩, fun h => h.2⟩
        · simp only [List.any_append, List.any_cons, List.any_nil, Event.isStdout,
            Bool.or_false]
          rw [hw]
          exact ⟨fun h => ⟨hen, h⟩, fun h => h.2⟩
        · rw [hw]
          exact ⟨fun h => ⟨hen, h⟩, fun h => h.2⟩
      · rw [if_neg hen]
        split_ifs
        · exact ⟨fun h => by simp [Event.isStdout] at h, fun h => absurd h.1 hen⟩
        · exact ⟨fun h => by simp at h, fun h => absurd h.1 hen⟩

/-- Claim C2, as amended: a provider built by `NewConsoleProvider` emits a record
exactly when the level is at least `config.Level`, is one of the five levels the
`switch` names, is enabled by the level of the logrus logger (the level string
parsed, Info when it does not parse) and the formatter returns no error, which
the console formatter never does. -/
theorem C2_write_emits_iff (cfg : ProviderConfig) (fmt : ConsoleFormatter) (env : Env)
    (ctx : Context) (L : sglogger.Level) (message : String) (fields : Fields) :
    (((NewConsoleProvider cfg fmt).Write env ctx L message fields).emitted = true ↔
      L ≥ cfg.Level ∧
        ∃ l, logrusLevelOf L = some l ∧
          (logrus.ParseLevel cfg.GetLevel).getD logrus.InfoLevel ≥ l ∧
          (fmt env (entryOf (NewConsoleProvider cfg fmt) fields l message)).2 = none) ∧
    (∀ entry, (NewConsoleFormatter env entry).2 = none) := by
  exact ⟨NewConsoleProvider_emitted_iff cfg fmt env ctx L message fields, fun _ => rfl⟩

/-- Claim C2 fails as stated: a Debug message passes `ShouldLog` of a provider whose
threshold is Debug and whose level string is "bogus", and is not emitted; a
level 7 passes `ShouldLog` and is not emitted; an Info message is not emitted
when the formatter fails. -/
theorem C2_counterexample :
    ((NewConsoleProvider ⟨sglogger.LevelDebug, "bogus"⟩ NewConsoleFormatter).ShouldLog
        ctxBackground sglogger.LevelDebug = true ∧
      ((NewConsoleProvider ⟨sglogger.LevelDebug, "bogus"⟩ NewConsoleFormatter).Write envExample
        ctxBackground sglogger.LevelDebug "cache miss" []).emitted = false) ∧
    ((NewConsoleProvider ⟨sglogger.LevelDebug, "debug"⟩ NewConsoleFormatter).ShouldLog
        ctxBackground 7 = true ∧
      ((NewConsoleProvider ⟨sglogger.LevelDebug, "debug"⟩ NewConsoleFormatter).Write envExample
        ctxBackground 7 "cache miss" []).emitted = false) ∧
    ((NewConsoleProvider ⟨sglogger.LevelDebug, "debug"⟩
        (fun _ _ => ("", some "no buffer"))).ShouldLog ctxBackground sglogger.LevelInfo = true ∧
      ((NewConsoleProvider ⟨sglogger.LevelDebug, "debug"⟩
        (fun _ _ => ("", some "no buffer"))).Write envExample
        ctxBackground sglogger.LevelInfo "cache miss" []).emitted = false) := by
  decide

/-- The five shapes of the outcome of `Write`. -/
theorem consoleProvider.Write_cases (p : consoleProvider) (env : Env) (ctx : Context)
    (L : sglogger.Level) (message : String) (fields : Fields) :
    p.Write env ctx L message fields = { trace := [], result := WriteResult.returned none } ∨
    (L = sglogger.LevelFatal ∧ p.Write env ctx L message fields =
      { trace := [Event.exit 1], result := WriteResult.exited 1 }) ∨
    ∃ l,
      (p.Write env ctx L message fields =
        { trace := (logrus.Entry.write p.logrus env (entryOf p fields l message)).trace,
          result := WriteResult.killed }) ∨
      (L = sglogger.LevelFatal ∧ p.Write env ctx L message fields =
        { trace := (logrus.Entry.write p.logrus env (entryOf p fields l message)).trace ++
            [Event.exit 1],
          result := WriteResult.exited 1 }) ∨
      (L ≠ sglogger.LevelFatal ∧ p.Write env ctx L message fields =
        { trace := (logrus.Entry.write p.logrus env (entryOf p fields l message)).trace,
          result := WriteResult.returned none }) := by
  rw [consoleProvider.Write_eq]
  by_cases hlt : L < p.config.Level
  · rw [if_pos hlt]
    exact Or.inl rfl
  · rw [if_neg hlt]
    rcases logrusLevelOf L with _ | l
    · exact Or.inl rfl
    · dsimp only
      by_cases hen : p.logrus.Level ≥ l
      · rw [if_pos hen]
        refine Or.inr (Or.inr ⟨l, ?_⟩)
        by_cases hs : (logrus.Entry.write p.logrus env (entryOf p fields l message)).status =
            logrus.Status.killed
        · rw [if_pos hs]
          exact Or.inl rfl
        · rw [if_neg hs]
          by_cases hF : L = sglogger.LevelFatal
          · rw [if_pos hF]
            exact Or.inr (Or.inl ⟨hF, rfl⟩)
          · rw [if_neg hF]
            exact Or.inr (Or.inr ⟨hF, rfl⟩)
      · rw [if_neg hen]
        by_cases hF : L = sglogger.LevelFatal
        · rw [if_pos hF]
          exact Or.inr (Or.inl ⟨hF, rfl⟩)
        · rw [if_neg hF]
          exact Or.inl rfl

/-- Claim C8, as amended: two configurations with the same `config.Level`, one with a
level string that does not parse and one with "info", give providers that
filter alike: the logger level is Info in both, `ShouldLog` gives the same
answer and `Write` has the same events and result; with the console formatter a
record is emitted exactly when its level is at least `config.Level` and is Info,
Warn, Error or Fatal, so Debug is always dropped by `Write`. -/
theorem C8_unparseable_like_info (s : String) (hs : logrus.ParseLevel s = none)
    (T : sglogger.Level) (fmt : ConsoleFormatter) (env : Env) (ctx : Context)
    (L : sglogger.Level) (message : String) (fields : Fields) :
    (NewConsoleProvider ⟨T, s⟩ fmt).logrus.Level = logrus.InfoLevel ∧
    (NewConsoleProvider ⟨T, "info"⟩ fmt).logrus.Level = logrus.InfoLevel ∧
    (NewConsoleProvider ⟨T, s⟩ fmt).ShouldLog ctx L =
      (NewConsoleProvider ⟨T, "info"⟩ fmt).ShouldLog ctx L ∧
    (NewConsoleProvider ⟨T, s⟩ fmt).Write env ctx L message fields =
      (NewConsoleProvider ⟨T, "info"⟩ fmt).Write env ctx L message fields ∧
    (((NewConsoleProvider ⟨T, s⟩ NewConsoleFormatter).Write env ctx L message fields).emitted
        = true ↔
      L ≥ T ∧ (L = sglogger.LevelInfo ∨ L = sglogger.LevelWarn ∨ L = sglogger.LevelError ∨
        L = sglogger.LevelFatal)) := by
  have hA : ∀ f : ConsoleFormatter, (NewConsoleProvider ⟨T, s⟩ f).logrus.Level = logrus.InfoLevel := by
    intro f
    rw [NewConsoleProvider_level]
    simp [hs]
  have hB : (NewConsoleProvider ⟨T, "info"⟩ fmt).logrus.Level = logrus.InfoLevel := by
    rw [NewConsoleProvider_level]
    show (logrus.ParseLevel "info").getD logrus.InfoLevel = logrus.InfoLevel
    decide
  have hlog : (NewConsoleProvider ⟨T, s⟩ fmt).logrus = (NewConsoleProvider ⟨T, "info"⟩ fmt).logrus := by
    have h1 : (NewConsoleProvider ⟨T, s⟩ fmt).logrus = ⟨fmt, (NewConsoleProvider ⟨T, s⟩ fmt).logrus.Level⟩ := rfl
    have h2 : (NewConsoleProvider ⟨T, "info"⟩ fmt).logrus =
        ⟨fmt, (NewConsoleProvider ⟨T, "info"⟩ fmt).logrus.Level⟩ := rfl
    rw [h1, h2, hA, hB]
  refine ⟨hA fmt, hB, rfl, ?_, ?_⟩
  · rw [consoleProvider.Write_eq, consoleProvider.Write_eq]
    have hc1 : (NewConsoleProvider ⟨T, s⟩ fmt).config.Level = T := rfl
    have hc2 : (NewConsoleProvider ⟨T, "info"⟩ fmt).config.Level = T := rfl
    have he : ∀ l, entryOf (NewConsoleProvider ⟨T, s⟩ fmt) fields l message =
        entryOf (NewConsoleProvider ⟨T, "info"⟩ fmt) fields l message := fun _ => rfl
    simp only [hc1, hc2, he, hlog]
  · have h := NewConsoleProvider_emitted_iff ⟨T, s⟩ NewConsoleFormatter env ctx L message fields
    rw [h]
    simp only [hs, Option.getD_none]
    constructor
    · rintro ⟨h1, l, h2, h3, -⟩
      refine ⟨h1, ?_⟩
      unfold logrusLevelOf at h2
      split_ifs at h2 with a b c d e
      · cases h2
        exact absurd h3 (by decide)
      · exact Or.inl b
      · exact Or.inr (Or.inl c)
      · exact Or.inr (Or.inr (Or.inl d))
      · exact Or.inr (Or.inr (Or.inr e))
    · rintro ⟨h1, h2 | h2 | h2 | h2⟩ <;> subst h2
      · exact ⟨h1, logrus.InfoLevel, by decide, by decide, rfl⟩
      · exact ⟨h1, logrus.WarnLevel, by decide, by decide, rfl⟩
      · exact ⟨h1, logrus.ErrorLevel, by decide, by decide, rfl⟩
      · exact ⟨h1, logrus.FatalLevel, by decide, by decide, rfl⟩

/-- Claim C8, as amended, at the level string "bogus", the threshold Info and a
Warn message. -/
theorem C8_unparseable_like_info_witness :
    logrus.ParseLevel "bogus" = none ∧
    ((NewConsoleProvider ⟨sglogger.LevelInfo, "bogus"⟩ NewConsoleFormatter).logrus.Level =
        logrus.InfoLevel ∧
      (NewConsoleProvider ⟨sglogger.LevelInfo, "info"⟩ NewConsoleFormatter).logrus.Level =
        logrus.InfoLevel ∧
      (NewConsoleProvider ⟨sglogger.LevelInfo, "bogus"⟩ NewConsoleFormatter).ShouldLog
          ctxBackground sglogger.LevelWarn =
        (NewConsoleProvider ⟨sglogger.LevelInfo, "info"⟩ NewConsoleFormatter).ShouldLog
          ctxBackground sglogger.LevelWarn ∧
      (NewConsoleProvider ⟨sglogger.LevelInfo, "bogus"⟩ NewConsoleFormatter).Write envExample
          ctxBackground sglogger.LevelWarn "slow query" [("ms", Value.int 950)] =
        (NewConsoleProvider ⟨sglogger.LevelInfo, "info"⟩ NewConsoleFormatter).Write envExample
          ctxBackground sglogger.LevelWarn "slow query" [("ms", Value.int 950)] ∧
      (((NewConsoleProvider ⟨sglogger.LevelInfo, "bogus"⟩ NewConsoleFormatter).Write envExample
          ctxBackground sglogger.LevelWarn "slow query" [("ms", Value.int 950)]).emitted = true ↔
        sglogger.LevelWarn ≥ sglogger.LevelInfo ∧
          (sglogger.LevelWarn = sglogger.LevelInfo ∨ sglogger.LevelWarn = sglogger.LevelWarn ∨
            sglogger.LevelWarn = sglogger.LevelError ∨
            sglogger.LevelWarn = sglogger.LevelFatal))) :=
  ⟨by decide, C8_unparseable_like_info "bogus" (by decide) sglogger.LevelInfo
    NewConsoleFormatter envExample ctxBackground sglogger.LevelWarn "slow query"
    [("ms", Value.int 950)]⟩

/-- Claim C8 fails as stated: with the threshold Error and the level string "bogus",
Info is dropped by `ShouldLog` and by `Write`, and a provider with the level
string "info" and the threshold Debug answers otherwise; with the threshold
Debug and the level string "bogus", `ShouldLog` passes Debug. -/
theorem C8_counterexample :
    logrus.ParseLevel "bogus" = none ∧
    (NewConsoleProvider ⟨sglogger.LevelError, "bogus"⟩ NewConsoleFormatter).ShouldLog
        ctxBackground sglogger.LevelInfo = false ∧
    ((NewConsoleProvider ⟨sglogger.LevelError, "bogus"⟩ NewConsoleFormatter).Write envExample
        ctxBackground sglogger.LevelInfo "started" []).emitted = false ∧
    (NewConsoleProvider ⟨sglogger.LevelDebug, "info"⟩ NewConsoleFormatter).ShouldLog
        ctxBackground sglogger.LevelInfo = true ∧
    ((NewConsoleProvider ⟨sglogger.LevelDebug, "info"⟩ NewConsoleFormatter).Write envExample
        ctxBackground sglogger.LevelInfo "started" []).emitted = true ∧
    (NewConsoleProvider ⟨sglogger.LevelDebug, "bogus"⟩ NewConsoleFormatter).ShouldLog
        ctxBackground sglogger.LevelDebug = true := by
  decide

/-- Claim C9, as amended: a Fatal message that passes `ShouldLog` never returns
control.  When the level of the logrus logger is Panic (level string "panic")
nothing is written and the process exits with status 1.  Otherwise the
formatter is called and, unless it returns an error, its line is written on
standard output; a formatter error or a write error is reported on standard
error; then the process exits with status 1, the exit being the last event,
unless one of these writes met a broken pipe, in which case the process died of
SIGPIPE inside that write and there is no exit.  In every other case `Write`
makes no exit: it returns nil, or the process dies of SIGPIPE inside a write. -/
theorem C9_fatal_exits (p : consoleProvider) (env : Env) (ctx : Context)
    (L : sglogger.Level) (message : String) (fields : Fields) :
    if L = sglogger.LevelFatal ∧ p.ShouldLog ctx L = true then
      ∃ (e : logrus.Entry) (line : String) (ferr : Option String),
        e = entryOf p fields logrus.FatalLevel message ∧
        p.logrus.Formatter env e = (line, ferr) ∧
        p.Write env ctx L message fields =
          if p.logrus.Level = logrus.PanicLevel then
            { trace := [Event.exit 1], result := WriteResult.exited 1 }
          else
            match ferr with
            | some err =>
              if env.stderrWrite ("Failed to obtain reader, " ++ err ++ "\n") =
                  IOResult.sigpipe then
                { trace := [Event.format e,
                    Event.stderr ("Failed to obtain reader, " ++ err ++ "\n") IOResult.sigpipe],
                  result := WriteResult.killed }
              else
                { trace := [Event.format e,
                    Event.stderr ("Failed to obtain reader, " ++ err ++ "\n")
                      (env.stderrWrite ("Failed to obtain reader, " ++ err ++ "\n")),
                    Event.exit 1],
                  result := WriteResult.exited 1 }
            | none =>
              match env.stdoutWrite line with
              | IOResult.ok =>
                { trace := [Event.format e, Event.stdout line IOResult.ok, Event.exit 1],
                  result := WriteResult.exited 1 }
              | IOResult.sigpipe =>
                { trace := [Event.format e, Event.stdout line IOResult.sigpipe],
                  result := WriteResult.killed }
              | IOResult.failed err =>
                if env.stderrWrite ("Failed to write to log, " ++ err ++ "\n") =
                    IOResult.sigpipe then
                  { trace := [Event.format e, Event.stdout line (IOResult.failed err),
                      Event.stderr ("Failed to write to log, " ++ err ++ "\n")
                        IOResult.sigpipe],
                    result := WriteResult.killed }
                else
                  { trace := [Event.format e, Event.stdout line (IOResult.failed err),
                      Event.stderr ("Failed to write to log, " ++ err ++ "\n")
                        (env.stderrWrite ("Failed to write to log, " ++ err ++ "\n")),
                      Event.exit 1],
                    result := WriteResult.exited 1 }
    else
      ((p.Write env ctx L message fields).result = WriteResult.returned none ∨
        (p.Write env ctx L message fields).result = WriteResult.killed) ∧
      (∀ code, Event.exit code ∉ (p.Write env ctx L message fields).trace) ∧
      ((p.Write env ctx L message fields).result = WriteResult.killed ↔
        (p.Write env ctx L message fields).trace.any Event.isSigpipe = true) := by
  by_cases hlt : L < p.config.Level
  · have hs : ¬ (L = sglogger.LevelFatal ∧ p.ShouldLog ctx L = true) := by
      rintro ⟨-, h⟩
      simp only [consoleProvider.ShouldLog, decide_eq_true_eq] at h
      exact absurd hlt (not_lt.mpr h)
    rw [if_neg hs]
    refine ⟨?_, ?_, consoleProvider.Write_killed_iff p env ctx L message fields⟩
    · rw [consoleProvider.Write_eq, if_pos hlt]
      exact Or.inl rfl
    · rw [consoleProvider.Write_eq, if_pos hlt]
      intro code h
      simp at h
  · have hge : p.ShouldLog ctx L = true := by
      simp only [consoleProvider.ShouldLog, decide_eq_true_eq]
      exact not_lt.mp hlt
    by_cases hF : L = sglogger.LevelFatal
    · rw [if_pos ⟨hF, hge⟩]
      have hl : logrusLevelOf L = some logrus.FatalLevel := by
        rw [hF]
        decide
      refine ⟨entryOf p fields logrus.FatalLevel message,
        (p.logrus.Formatter env (entryOf p fields logrus.FatalLevel message)).1,
        (p.logrus.Formatter env (entryOf p fields logrus.FatalLevel message)).2, rfl, rfl, ?_⟩
      rw [consoleProvider.Write_eq, if_neg hlt, hl]
      dsimp only
      by_cases h0 : p.logrus.Level = logrus.PanicLevel
      · have hen : ¬ p.logrus.Level ≥ logrus.FatalLevel := by
          rw [h0]
          decide
        rw [if_pos h0, if_neg hen, if_pos hF]
      · have hen : p.logrus.Level ≥ logrus.FatalLevel := Nat.pos_of_ne_zero h0
        rw [if_neg h0, if_pos hen, if_pos hF, logrus.Entry.write_eq]
        rcases (p.logrus.Formatter env (entryOf p fields logrus.FatalLevel message)).2 with
          _ | err
        · dsimp only
          rcases env.stdoutWrite
            (p.logrus.Formatter env (entryOf p fields logrus.FatalLevel message)).1 with
            _ | e | _
          · simp
          · dsimp only
            by_cases hs : env.stderrWrite ("Failed to write to log, " ++ e ++ "\n") =
                IOResult.sigpipe
            · simp [hs]
            · simp [hs]
          · simp
        · dsimp only
          by_cases hs : env.stderrWrite ("Failed to obtain reader, " ++ err ++ "\n") =
              IOResult.sigpipe
          · simp [hs]
          · simp [hs]
    · have hs : ¬ (L = sglogger.LevelFatal ∧ p.ShouldLog ctx L = true) := fun h => hF h.1
      rw [if_neg hs]
      refine ⟨?_, ?_, consoleProvider.Write_killed_iff p env ctx L message fields⟩
      · rcases consoleProvider.Write_cases p env ctx L message fields with
          h | ⟨hf, -⟩ | ⟨l, h | ⟨hf, -⟩ | ⟨-, h⟩⟩
        · rw [h]
          exact Or.inl rfl
        · exact absurd hf hF
        · rw [h]
          exact Or.inr rfl
        · exact absurd hf hF
        · rw [h]
          exact Or.inl rfl
      · intro code
        rcases consoleProvider.Write_cases p env ctx L message fields with
          h | ⟨hf, -⟩ | ⟨l, h | ⟨hf, -⟩ | ⟨-, h⟩⟩
        · rw [h]
          simp
        · exact absurd hf hF
        · rw [h]
          exact logrus.Entry.write_no_exit _ _ _ _
        · exact absurd hf hF
        · rw [h]
          exact logrus.Entry.write_no_exit _ _ _ _

/-- Claim C9 fails as stated: with the level string "panic" a Fatal message passes
`ShouldLog` and the process exits with status 1 without any line written; and
an Error message written on a broken pipe ends the process by SIGPIPE. -/
theorem C9_counterexample :
    ((NewConsoleProvider ⟨sglogger.LevelDebug, "panic"⟩ NewConsoleFormatter).ShouldLog
        ctxBackground sglogger.LevelFatal = true ∧
      (NewConsoleProvider ⟨sglogger.LevelDebug, "panic"⟩ NewConsoleFormatter).Write envExample
          ctxBackground sglogger.LevelFatal "out of memory" [] =
        { trace := [Event.exit 1], result := WriteResult.exited 1 }) ∧
    (NewConsoleProvider ⟨sglogger.LevelDebug, "debug"⟩ NewConsoleFormatter).Write envBrokenPipe
        ctxBackground sglogger.LevelError "disk full" [] =
      { trace := [
          Event.format { Data := [], Level := logrus.ErrorLevel, Message := "disk full" },
          Event.stdout "2024-01-15 10:30:45 [\x1b[31mERROR\x1b[0m] main.go(25) - disk full\n"
            IOResult.sigpipe],
        result := WriteResult.killed } := by
  decide

/-! ## The claims on `getCaller` and on the example line -/

theorem strings.splitData_last (sep : Char) (s : List Char) :
    ∃ init last, strings.splitData sep s = init ++ [last] ∧ sep ∉ last ∧
      (init = [] → s = last) ∧ (init ≠ [] → ∃ pre, s = pre ++ sep :: last) := by
  induction s with
  | nil => exact ⟨[], [], rfl, by simp, fun _ => rfl, fun h => absurd rfl h⟩
  | cons c cs ih =>
    obtain ⟨init, last, hsplit, hsep, h1, h2⟩ := ih
    by_cases hc : c = sep
    · refine ⟨[] :: init, last, by simp [strings.splitData, hc, hsplit], hsep,
        fun h => by simp at h, fun _ => ?_⟩
      cases init with
      | nil => exact ⟨[], by simp [hc, h1 rfl]⟩
      | cons i is =>
        obtain ⟨pre, hpre⟩ := h2 (by simp)
        exact ⟨c :: pre, by simp [hpre]⟩
    · cases init with
      | nil =>
        refine ⟨[], c :: last, by simp [strings.splitData, hc, hsplit], ?_, fun _ => ?_,
          fun h => absurd rfl h⟩
        · simp only [List.mem_cons, not_or]
          exact ⟨fun h => hc h.symm, hsep⟩
        · rw [h1 rfl]
      | cons i is =>
        refine ⟨(c :: i) :: is, last, by simp [strings.splitData, hc, hsplit], hsep,
          fun h => by simp at h, fun _ => ?_⟩
        obtain ⟨pre, hpre⟩ := h2 (by simp)
        exact ⟨c :: pre, by simp [hpre]⟩

/-- The last piece of Go `strings.Split(file, "/")` is the text after the last
slash: it has no slash, and the path is that piece alone or a directory part, a
slash and that piece. -/
theorem strings.Split_last (file : String) :
    ∃ base : String, (strings.Split file '/').getLast? = some base ∧ '/' ∉ base.data ∧
      (file = base ∨ ∃ dir : String, file = dir ++ "/" ++ base) := by
  obtain ⟨init, last, hsplit, hsep, h1, h2⟩ := strings.splitData_last '/' file.data
  refine ⟨String.mk last, ?_, hsep, ?_⟩
  · simp [strings.Split, hsplit]
  · by_cases hi : init = []
    · left
      apply String.ext
      exact h1 hi
    · right
      obtain ⟨pre, hpre⟩ := h2 hi
      refine ⟨String.mk pre, ?_⟩
      apply String.ext
      rw [hpre]
      simp [String.data_append]

theorem getCallerFrom_eq (env : Env) (n i : Nat) :
    getCallerFrom env i n =
      match ((List.range' i n).filterMap (frameAt env)).find? qualifies with
      | some f =>
        (match (strings.Split f.file '/').getLast? with
          | some last => last
          | none => f.file, f.line)
      | none => ("???", 0) := by
  induction n generalizing i with
  | zero => rfl
  | succ n ih =>
    rw [List.range'_succ, List.filterMap_cons]
    unfold getCallerFrom
    rcases hC : env.Caller i with _ | ⟨pc, file, line⟩
    · simp only [frameAt, hC]
      exact ih (i + 1)
    · rcases hFn : env.FuncForPC pc with _ | fn
      · simp only [frameAt, hC, hFn]
        exact ih (i + 1)
      · simp only [frameAt, hC, hFn, List.find?_cons, qualifies]
        cases hA : strings.Contains fn "logrus" <;> cases hB : strings.Contains file "logrus" <;>
          cases hD : strings.Contains fn "logger" <;>
          cases hE : strings.Contains file "logger" <;>
          simp [ih (i + 1)]
        rcases (strings.Split file '/').getLast? with _ | last <;> rfl

theorem getCaller_eq (env : Env) :
    getCaller env =
      match firstQualifying env with
      | some f =>
        (match (strings.Split f.file '/').getLast? with
          | some last => last
          | none => f.file, f.line)
      | none => ("???", 0) := by
  unfold getCaller firstQualifying
  rw [getCallerFrom_eq]
  rfl

theorem frameAt_line_pos (env : Env) (i : Nat) (f : Frame) (h : frameAt env i = some f) :
    1 ≤ f.line := by
  unfold frameAt at h
  rcases hC : env.Caller i with _ | ⟨pc, file, line⟩
  · rw [hC] at h
    cases h
  · rw [hC] at h
    dsimp only at h
    rcases hFn : env.FuncForPC pc with _ | fn
    · rw [hFn] at h
      cases h
    · rw [hFn] at h
      cases h
      exact env.line_pos i pc file line fn hC hFn

theorem firstQualifying_line_pos (env : Env) (f : Frame) (h : firstQualifying env = some f) :
    1 ≤ f.line := by
  unfold firstQualifying at h
  have hmem := List.mem_of_find?_eq_some h
  rw [List.mem_filterMap] at hmem
  obtain ⟨i, -, hi⟩ := hmem
  exact frameAt_line_pos env i f hi

/-- Claim C10: `getCaller` returns the last path segment (the text after the last
slash, with no slash in it) and the line of the first resolvable frame at depths
3 to 10 whose function name and file path contain neither `logrus` nor `logger`,
and it returns the sentinel `("???", 0)` if and only if no frame in that range
qualifies. -/
theorem C10_getCaller_first_qualifying (env : Env) :
    (match firstQualifying env with
      | some f =>
        ∃ base : String, (strings.Split f.file '/').getLast? = some base ∧
          getCaller env = (base, f.line) ∧ '/' ∉ base.data ∧
          (f.file = base ∨ ∃ dir : String, f.file = dir ++ "/" ++ base)
      | none => getCaller env = ("???", 0)) ∧
    (getCaller env = ("???", 0) ↔ firstQualifying env = none) := by
  rw [getCaller_eq]
  rcases hq : firstQualifying env with _ | f
  · exact ⟨rfl, fun _ => rfl, fun _ => rfl⟩
  · obtain ⟨base, hb, hslash, hfile⟩ := strings.Split_last f.file
    have hpos := firstQualifying_line_pos env f hq
    dsimp only
    rw [hb]
    refine ⟨⟨base, rfl, rfl, hslash, hfile⟩, ?_, ?_⟩
    · intro h
      simp only [Prod.mk.injEq] at h
      rw [h.2] at hpos
      exact absurd hpos (by decide)
    · intro h
      cases h

theorem strings.Contains_append_left (a b sub : String) (h : strings.Contains a sub = true) :
    strings.Contains (a ++ b) sub = true := by
  rw [strings.Contains_iff] at h ⊢
  obtain ⟨pre, post, rfl⟩ := h
  exact ⟨pre, post ++ b, by simp [String.append_assoc]⟩

theorem strings.Contains_append_right (a b sub : String) (h : strings.Contains b sub = true) :
    strings.Contains (a ++ b) sub = true := by
  rw [strings.Contains_iff] at h ⊢
  obtain ⟨pre, post, rfl⟩ := h
  exact ⟨a ++ pre, post, by simp [String.append_assoc]⟩

theorem Format_entryStarted (env : Env) :
    (consoleFormatter.Format env entryStarted).1 =
      env.now ++ (" [\x1b[32mINFO\x1b[0m] " ++ ((getCaller env).1 ++
        ("(" ++ (toString (getCaller env).2 ++ ") - Application started user_id=123\n")))) := by
  have hperm : env.rangeOrder [("user_id", Value.int 123)] = [("user_id", Value.int 123)] :=
    List.perm_singleton.mp (env.rangeOrder_perm _)
  have hK1 : (" [\x1b[32mINFO\x1b[0m] " : String) =
      " [" ++ (levelColor logrus.InfoLevel ++
        (strings.ToUpper (logrus.LevelString logrus.InfoLevel) ++ ("\x1b[0m" ++ "] "))) := by
    decide
  have hK2 : (") - Application started user_id=123\n" : String) =
      ") - " ++ ("Application started" ++
        (" " ++ strings.Join [fieldPart ("user_id", Value.int 123)] " " ++ "\n")) := by
    decide
  have hlen : ([("user_id", Value.int 123)] : Fields).length > 0 := by decide
  rw [hK1, hK2]
  simp only [consoleFormatter.Format, entryStarted, hperm, if_pos hlen, List.map_cons,
    List.map_nil, String.append_assoc]

/-- Claim C6, as amended: for the record with level Info, message "Application started"
and fields user_id=123, whatever the timestamp and the caller, the line of
`Format` contains the level name between brackets with its colour codes
(`[` ESC`[32mINFO` ESC`[0m]`), contains "Application started", contains
"user_id=123", and ends with the digit 3 and one newline. -/
theorem C6_example_line (env : Env) :
    strings.Contains (consoleFormatter.Format env entryStarted).1 "[\x1b[32mINFO\x1b[0m]"
      = true ∧
    strings.Contains (consoleFormatter.Format env entryStarted).1 "Application started" = true ∧
    strings.Contains (consoleFormatter.Format env entryStarted).1 "user_id=123" = true ∧
    (∃ body : String, (consoleFormatter.Format env entryStarted).1 = body ++ "3\n") ∧
    (consoleFormatter.Format env entryStarted).2 = none := by
  rw [Format_entryStarted]
  refine ⟨?_, ?_, ?_, ?_, rfl⟩
  · apply strings.Contains_append_right
    apply strings.Contains_append_left
    decide
  · iterate 5 apply strings.Contains_append_right
    decide
  · iterate 5 apply strings.Contains_append_right
    decide
  · refine ⟨env.now ++ (" [\x1b[32mINFO\x1b[0m] " ++ ((getCaller env).1 ++
        ("(" ++ (toString (getCaller env).2 ++ ") - Application started user_id=12")))), ?_⟩
    have h : (") - Application started user_id=123\n" : String) =
        ") - Application started user_id=12" ++ "3\n" := by decide
    rw [h]
    simp only [String.append_assoc]

/-- Claim C6 fails as stated: with the timestamp 2024-01-15 10:30:45 and the caller
main.go line 25 the line of `Format` does not contain `[INFO]`, because the
colour codes stand between the brackets and the name. -/
theorem C6_counterexample :
    (consoleFormatter.Format envExample entryStarted).1 =
      "2024-01-15 10:30:45 [\x1b[32mINFO\x1b[0m] main.go(25) - Application started user_id=123\n" ∧
    strings.Contains (consoleFormatter.Format envExample entryStarted).1 "[INFO]" = false := by
  decide
